import Mathlib

/-!
Shallow embedding of the finite-state-machine engine (ironic/common/fsm.py)
and of the concrete provisioning state graph built on top of it
(ironic/common/states.py).

Conventions of the embedding:

* Python dicts (including OrderedDict) are insertion-ordered association
  lists; assignment to an existing key replaces the value in place,
  assignment to a fresh key appends.

* State names have type Option String because the Python code uses None
  (the NOSTATE sentinel) as a legitimate state name.  The same conflation
  the Python code has between "no value" and NOSTATE (for the start state,
  for the optional argument of initialize, and for a declared target) is
  kept on purpose.

* Mutation is explicit state passing: every mutating method returns the
  possibly updated machine together with an Except value; the machine
  component is exactly what the Python object holds at the moment the
  method returns or raises.  A raise that happens before any assignment
  therefore returns the unchanged input machine.

* Hook callbacks are embedded as functions returning Except String Unit:
  an .error payload stands for an exception raised inside the callback,
  which the engine never catches.  Reaction callbacks return the next
  event.  The six.callable assertions of the source are vacuous here
  because every embedded callback is a function.

* Exception classes are embedded as the constructors of Exn; the message
  strings, on which no verified claim depends, are dropped.  keyError
  stands for a Python KeyError raised by a dict subscript on a missing
  key.
-/

/-- A state name: either the NOSTATE sentinel (Python None) or a string. -/
abbrev SName := Option String

/-- An enter or exit hook: called with (state name, event); an .error
result stands for an exception the callback raised. -/
abbrev Hook := SName → String → Except String Unit

/-- Exceptions the engine can let escape: the excp.* classes raised by
fsm.py itself, FrozenMachine, a KeyError from a dict subscript, and an
arbitrary exception raised inside a hook callback (payload preserved). -/
inductive Exn where
  | notFound
  | invalidState
  | duplicate
  | frozenMachine
  | keyError
  | hookRaised (payload : String)
deriving DecidableEq

/-- Lookup in an association list: Python d.get(k) / d[k]. -/
def alGet {α β : Type} [DecidableEq α] (l : List (α × β)) (k : α) : Option β :=
  match l with
  | [] => none
  | (a, b) :: t => if a = k then some b else alGet t k

/-- Python (k in d). -/
def alMem {α β : Type} [DecidableEq α] (l : List (α × β)) (k : α) : Bool :=
  (alGet l k).isSome

/-- Python d[k] = v: replace in place if the key exists, append otherwise. -/
def alInsert {α β : Type} [DecidableEq α] (l : List (α × β)) (k : α) (v : β) :
    List (α × β) :=
  match l with
  | [] => [(k, v)]
  | (a, b) :: t => if a = k then (k, v) :: t else (a, b) :: alInsert t k v

theorem alGet_insert_self {α β : Type} [DecidableEq α]
    (l : List (α × β)) (k : α) (v : β) : alGet (alInsert l k v) k = some v := by
  induction l with
  | nil => simp [alInsert, alGet]
  | cons hd t ih =>
    obtain ⟨a, b⟩ := hd
    by_cases h : a = k
    · simp [alInsert, alGet, h]
    · simp [alInsert, alGet, h, ih]

theorem alGet_mem {α β : Type} [DecidableEq α]
    {l : List (α × β)} {k : α} {v : β} (h : alGet l k = some v) : (k, v) ∈ l := by
  induction l with
  | nil => simp [alGet] at h
  | cons hd t ih =>
    obtain ⟨a, b⟩ := hd
    by_cases hak : a = k
    · subst hak
      simp [alGet] at h
      simp [h]
    · simp [alGet, hak] at h
      exact List.mem_cons_of_mem _ (ih h)

theorem alMem_insert_self {α β : Type} [DecidableEq α]
    (l : List (α × β)) (k : α) (v : β) : alMem (alInsert l k v) k = true := by
  simp [alMem, alGet_insert_self]

/-- A reaction binding: the callback together with the extra positional
arguments bound at add_reaction time (Python (reaction, args, kwargs)).
The callback receives (old state, new state, event, bound extras) and
returns the next event. -/
structure ReactionVal where
  cb : SName → SName → String → List String → String
  args : List String

/-- The _Jump record: destination name plus the hook references resolved
when the transition was added. -/
structure Jump where
  name : SName
  on_enter : Option Hook
  on_exit : Option Hook

/-- The per-state metadata dict built by add_state. -/
structure StateData where
  terminal : Bool
  reactions : List (String × ReactionVal)
  on_enter : Option Hook
  on_exit : Option Hook
  target : Option String

instance : Inhabited StateData := ⟨⟨false, [], none, none, none⟩⟩

instance : Inhabited Jump := ⟨⟨none, none, none⟩⟩

/-- What process_event returns on success: the reaction bound to
(destination, event) if any, and the destination's terminal flag. -/
structure PEOut where
  reaction : Option ReactionVal
  terminal : Bool

/-- The FSM object: transition table, state table, start state, the two
cursors and the frozen flag, exactly the attributes set by FSM.__init__. -/
structure FSM where
  transitions : List (SName × List (String × Jump))
  states : List (SName × StateData)
  start_state : SName
  target_state : Option String
  current : Option Jump
  frozen : Bool

/-- FSM.__init__(start_state=None). -/
def FSM.new (start : SName) : FSM :=
  { transitions := [], states := [], start_state := start,
    target_state := none, current := none, frozen := false }

/-- The current_state property: the current jump's name, or None when
uninitialized (Python returns None in both cases). -/
def FSM.current_state (m : FSM) : Option String :=
  match m.current with
  | none => none
  | some j => j.name

/-- The terminated property: False when uninitialized, else the current
state's terminal flag (a missing state entry is a KeyError). -/
def FSM.terminated (m : FSM) : Except Exn Bool :=
  match m.current with
  | none => .ok false
  | some cur =>
    match alGet m.states cur.name with
    | none => .error .keyError
    | some sd => .ok sd.terminal

/-- FSM.add_state(state, terminal=False, on_enter=None, on_exit=None,
target=None), with the source's check order: frozen, duplicate name,
then undefined target; on success both tables gain an entry. -/
def FSM.add_state (m : FSM) (state : SName) (terminal : Bool)
    (on_enter on_exit : Option Hook) (target : Option String) :
    FSM × Except Exn Unit :=
  if m.frozen then (m, .error .frozenMachine)
  else if alMem m.states state then (m, .error .duplicate)
  else
    let tgtBad : Bool := match target with
      | some t => !(alMem m.states (some t))
      | none => false
    if tgtBad then (m, .error .invalidState)
    else
      ({ m with
          states := alInsert m.states state
            ⟨terminal, [], on_enter, on_exit, target⟩,
          transitions := alInsert m.transitions state [] }, .ok ())

/-- FSM.add_reaction(state, event, reaction, args): frozen check, then
undefined state, then duplicate binding; the binding is stored only in
the non-duplicate branch. -/
def FSM.add_reaction (m : FSM) (state : SName) (event : String)
    (rv : ReactionVal) : FSM × Except Exn Unit :=
  if m.frozen then (m, .error .frozenMachine)
  else
    match alGet m.states state with
    | none => (m, .error .notFound)
    | some sd =>
      if alMem sd.reactions event then (m, .error .duplicate)
      else
        let sd2 : StateData := { sd with reactions := alInsert sd.reactions event rv }
        ({ m with states := alInsert m.states state sd2 }, .ok ())

/-- FSM.add_transition(start, end, event): frozen check, undefined start,
undefined end; the stored jump carries the end state's on_enter and the
start state's on_exit, exactly as in the source. -/
def FSM.add_transition (m : FSM) (start stop : SName) (event : String) :
    FSM × Except Exn Unit :=
  if m.frozen then (m, .error .frozenMachine)
  else
    match alGet m.states start with
    | none => (m, .error .notFound)
    | some sdStart =>
      match alGet m.states stop with
      | none => (m, .error .notFound)
      | some sdStop =>
        match alGet m.transitions start with
        | none => (m, .error .keyError)
        | some tbl =>
          let tbl2 := alInsert tbl event ⟨stop, sdStop.on_enter, sdStart.on_exit⟩
          ({ m with transitions := alInsert m.transitions start tbl2 }, .ok ())

/-- Run an optional hook (Python: if h is not None: h(name, event)). -/
def runHook (h : Option Hook) (s : SName) (e : String) : Except String Unit :=
  match h with
  | none => .ok ()
  | some f => f s e

/-- FSM.process_event(event), translated statement by statement: the three
guard raises, the exit-hook call taken from the current jump, the
enter-hook call taken from the replacement jump, only then the cursor
assignment, then the two target-state updates in source order, then the
(reaction, terminal) result.  Every raise site returns the machine as
mutated so far. -/
def FSM.process_event (m : FSM) (e : String) : FSM × Except Exn PEOut :=
  match m.current with
  | none => (m, .error .invalidState)
  | some cur =>
    match alGet m.states cur.name with
    | none => (m, .error .keyError)
    | some sd =>
      if sd.terminal then (m, .error .invalidState)
      else
        match alGet m.transitions cur.name with
        | none => (m, .error .keyError)
        | some tbl =>
          match alGet tbl e with
          | none => (m, .error .invalidState)
          | some rep =>
            match runHook cur.on_exit cur.name e with
            | .error x => (m, .error (.hookRaised x))
            | .ok _ =>
              match runHook rep.on_enter rep.name e with
              | .error x => (m, .error (.hookRaised x))
              | .ok _ =>
                let m1 : FSM := { m with current := some rep }
                let m2 : FSM :=
                  match m1.target_state with
                  | some t =>
                    if rep.name = some t then { m1 with target_state := none }
                    else m1
                  | none => m1
                match alGet m2.states rep.name with
                | none => (m2, .error .keyError)
                | some sd2 =>
                  let m3 : FSM :=
                    match m2.target_state, sd2.target with
                    | none, some tg => { m2 with target_state := some tg }
                    | _, _ => m2
                  (m3, .ok ⟨alGet sd2.reactions e, sd2.terminal⟩)

/-- FSM.test_event(event): the same three guards as process_event step 1,
returning False instead of raising; a missing dict entry would still be a
KeyError, as in the source. -/
def FSM.test_event (m : FSM) (e : String) : Except Exn Bool :=
  match m.current with
  | none => .ok false
  | some cur =>
    match alGet m.states cur.name with
    | none => .error .keyError
    | some sd =>
      if sd.terminal then .ok false
      else
        match alGet m.transitions cur.name with
        | none => .error .keyError
        | some tbl => .ok (alMem tbl e)

/-- FSM.initialize(state=None): defaults to the start state, rejects an
undefined state with NotFound, then reads the terminal flag of
self._start_state (not of the requested state!) exactly as the source
does, and finally installs a hook-free jump as the cursor.  The target
cursor is not touched. -/
def FSM.initMachine (m : FSM) (stateArg : SName) : FSM × Except Exn Unit :=
  let state : SName := if stateArg = none then m.start_state else stateArg
  if !(alMem m.states state) then (m, .error .notFound)
  else
    match alGet m.states m.start_state with
    | none => (m, .error .keyError)
    | some sdStart =>
      if sdStart.terminal then (m, .error .invalidState)
      else ({ m with current := some ⟨state, none, none⟩ }, .ok ())

/-- FSM.freeze(). -/
def FSM.freeze (m : FSM) : FSM := { m with frozen := true }

/-- FSM.__iter__: the (source, event, destination) edge enumeration,
iterating states in insertion order. -/
def FSM.edges (m : FSM) : List (SName × String × SName) :=
  m.states.flatMap fun p =>
    ((alGet m.transitions p.1).getD []).map fun ej => (p.1, ej.1, ej.2.name)

/-- Outcome of one resumption of the run_iter generator. -/
inductive RunnerResume where
  | finished
  | stalled
  | next (e : String)
deriving DecidableEq

/-- The resume section of FSM.run_iter (the code after the yield): break
when the newly entered state is terminal; raise NotFound when neither a
reaction nor a sent event is available; otherwise a sent event wins over
the reaction, whose callback is invoked with (old state, new state,
event, bound extras). -/
def runIterResume (terminal : Bool) (reaction : Option ReactionVal)
    (sent : Option String) (old new : Option String) (event : String) :
    RunnerResume :=
  if terminal then .finished
  else
    match reaction, sent with
    | none, none => .stalled
    | _, some se => .next se
    | some rv, none => .next (rv.cb old new event rv.args)

/-! The provisioning state graph of ironic/common/states.py, built through
the definition API in source order.  The state-name constants keep the
source's values; NOSTATE is none. -/

def ACTIVE : SName := some "active"

def DEPLOYWAIT : SName := some "wait call-back"

def DEPLOYING : SName := some "deploying"

def DEPLOYFAIL : SName := some "deploy failed"

def DEPLOYDONE : SName := some "deploy complete"

def DELETING : SName := some "deleting"

def DELETED : SName := some "deleted"

def ERROR : SName := some "error"

def REBUILD : SName := some "rebuild"

/-- The machine of states.py just before the final freeze() call: the ten
add_state calls (with their declared targets, where add_state stores the
target NOSTATE of DELETED as None) followed by the twenty add_transition
calls, in source order. -/
def machineUnfrozen : FSM :=
  let m := FSM.new none
  let m := (m.add_state none false none none none).1
  let m := (m.add_state ACTIVE false none none none).1
  let m := (m.add_state ERROR false none none none).1
  let m := (m.add_state DEPLOYDONE false none none ACTIVE).1
  let m := (m.add_state DEPLOYING false none none DEPLOYDONE).1
  let m := (m.add_state DEPLOYWAIT false none none none).1
  let m := (m.add_state DEPLOYFAIL false none none none).1
  let m := (m.add_state REBUILD false none none DEPLOYDONE).1
  let m := (m.add_state DELETED false none none none).1
  let m := (m.add_state DELETING false none none DELETED).1
  let m := (m.add_transition none DEPLOYING "active").1
  let m := (m.add_transition DEPLOYING DEPLOYFAIL "fail").1
  let m := (m.add_transition DEPLOYFAIL DEPLOYING "rebuild").1
  let m := (m.add_transition DEPLOYING DEPLOYWAIT "wait").1
  let m := (m.add_transition DEPLOYWAIT DEPLOYING "resume").1
  let m := (m.add_transition DEPLOYING DEPLOYDONE "done").1
  let m := (m.add_transition DEPLOYDONE ACTIVE "next-state").1
  let m := (m.add_transition ACTIVE DEPLOYING "rebuild").1
  let m := (m.add_transition ACTIVE DELETING "delete").1
  let m := (m.add_transition DEPLOYWAIT DELETING "delete").1
  let m := (m.add_transition DEPLOYFAIL DELETING "delete").1
  let m := (m.add_transition DELETING none "done").1
  let m := (m.add_transition none ERROR "error").1
  let m := (m.add_transition DEPLOYING ERROR "error").1
  let m := (m.add_transition DEPLOYWAIT ERROR "error").1
  let m := (m.add_transition ACTIVE ERROR "error").1
  let m := (m.add_transition REBUILD ERROR "error").1
  let m := (m.add_transition DELETING ERROR "error").1
  let m := (m.add_transition ERROR DEPLOYING "rebuild").1
  let m := (m.add_transition ERROR DELETING "delete").1
  m

/-- The frozen provisioning machine of states.py. -/
def machine : FSM := machineUnfrozen.freeze

/-! A heap-based layer on top of the same operations, needed to express
the aliasing behaviour of FSM.copy: the two tables live in heap cells and
a machine holds references to them; a shallow copy shares the cells, a
deep copy allocates fresh cells holding equal values.  Each definition
call reads the tables through the references, runs the corresponding pure
operation, and writes the resulting tables back through the references,
which is exactly the observational content of Python's in-place dict
mutation. -/

/-- A machine whose tables are held by reference into a heap. -/
structure HFSM where
  statesRef : Nat
  transRef : Nat
  hstart : SName
  htarget : Option String
  hcurrent : Option Jump
  hfrozen : Bool

/-- The heap of table cells. -/
structure Heap where
  statesTabs : List (List (SName × StateData))
  transTabs : List (List (SName × List (String × Jump)))

/-- Dereference: the plain FSM value a heap machine denotes. -/
def toFSM (hp : Heap) (m : HFSM) : FSM :=
  { transitions := hp.transTabs.getD m.transRef [],
    states := hp.statesTabs.getD m.statesRef [],
    start_state := m.hstart, target_state := m.htarget,
    current := m.hcurrent, frozen := m.hfrozen }

/-- Write both tables back through the machine's references. -/
def writeback (hp : Heap) (m : HFSM) (f : FSM) : Heap :=
  { statesTabs := hp.statesTabs.set m.statesRef f.states,
    transTabs := hp.transTabs.set m.transRef f.transitions }

/-- FSM.copy(shallow): always a fresh FSM(start) record, so the frozen
flag is cleared and both cursors are uninitialized; shallow shares the
table cells, deep allocates new cells with equal contents. -/
def hcopy (hp : Heap) (m : HFSM) (shallow : Bool) : Heap × HFSM :=
  if shallow then
    (hp, ⟨m.statesRef, m.transRef, m.hstart, none, none, false⟩)
  else
    ({ statesTabs := hp.statesTabs ++ [hp.statesTabs.getD m.statesRef []],
       transTabs := hp.transTabs ++ [hp.transTabs.getD m.transRef []] },
     ⟨hp.statesTabs.length, hp.transTabs.length, m.hstart, none, none, false⟩)

/-- add_state through the heap. -/
def haddState (hp : Heap) (m : HFSM) (state : SName) (terminal : Bool)
    (on_enter on_exit : Option Hook) (target : Option String) :
    Heap × Except Exn Unit :=
  let r := (toFSM hp m).add_state state terminal on_enter on_exit target
  (writeback hp m r.1, r.2)

/-- add_transition through the heap. -/
def haddTransition (hp : Heap) (m : HFSM) (start stop : SName)
    (event : String) : Heap × Except Exn Unit :=
  let r := (toFSM hp m).add_transition start stop event
  (writeback hp m r.1, r.2)

/-- add_reaction through the heap. -/
def haddReaction (hp : Heap) (m : HFSM) (state : SName) (event : String)
    (rv : ReactionVal) : Heap × Except Exn Unit :=
  let r := (toFSM hp m).add_reaction state event rv
  (writeback hp m r.1, r.2)

/-! Helper definitions used by the statements below. -/

/-- Whether an Except value is a success. -/
def exOk {ε α : Type} (r : Except ε α) : Bool :=
  match r with
  | .ok _ => true
  | .error _ => false

/-- The payload of a failed hook call (dummy value on success). -/
def errPayload (r : Except String Unit) : String :=
  match r with
  | .error s => s
  | .ok _ => ""

/-- Key closure of a machine: every state has a transition-table entry,
every stored jump names a defined state, and the cursor (when set) names
a defined state.  Every machine built through the definition API and
driven through the execution API satisfies this; it rules out the
KeyError paths. -/
def WFb (m : FSM) : Bool :=
  m.states.all (fun p => alMem m.transitions p.1)
  && m.transitions.all (fun q => q.2.all (fun ej => alMem m.states ej.2.name))
  && (match m.current with
      | none => true
      | some j => alMem m.states j.name)

/-- The target-state bookkeeping of process_event as one function: clear
the tracked target when the destination equals it, then adopt the
destination's declared target when none is tracked. -/
def targetStep (t : Option String) (dest : SName) (decl : Option String) :
    Option String :=
  let t1 : Option String :=
    match t with
    | some x => if dest = some x then none else some x
    | none => none
  match t1 with
  | none => decl
  | some x => some x

theorem listGetD_set_self {α : Type} (l : List α) (i : Nat) (x d : α)
    (h : i < l.length) : (l.set i x).getD i d = x := by
  induction l generalizing i with
  | nil => simp at h
  | cons a t ih =>
    cases i with
    | zero => simp
    | succ n =>
      simp only [List.set_cons_succ, List.getD_cons_succ]
      exact ih n (by simpa using h)

/-! Scenario A of the spec, step by step on the provisioning machine. -/

def sA0 : FSM := (machine.initMachine none).1

def sA1 : FSM := (sA0.process_event "active").1

def sA2 : FSM := (sA1.process_event "wait").1

def sA3 : FSM := (sA2.process_event "resume").1

def sA4 : FSM := (sA3.process_event "done").1

def sA5 : FSM := (sA4.process_event "next-state").1

/-! Small concrete machines used as counterexamples and witnesses. -/

/-- Two states, non-terminal start "a", terminal "b". -/
def mC2a : FSM :=
  let m := FSM.new (some "a")
  let m := (m.add_state (some "a") false none none none).1
  let m := (m.add_state (some "b") true none none none).1
  m

/-- Same two states but the configured start state is the terminal "b". -/
def mC2b : FSM :=
  let m := FSM.new (some "b")
  let m := (m.add_state (some "a") false none none none).1
  let m := (m.add_state (some "b") true none none none).1
  m

/-- A hook that always raises. -/
def boomHook : Hook := fun _ _ => .error "boom"

/-- States a, b, c where only b has an exit hook (which always raises);
edges a -x-> b and b -y-> c. -/
def cmA : FSM :=
  let m := FSM.new (some "a")
  let m := (m.add_state (some "a") false none none none).1
  let m := (m.add_state (some "b") false none (some boomHook) none).1
  let m := (m.add_state (some "c") false none none none).1
  let m := (m.add_transition (some "a") (some "b") "x").1
  let m := (m.add_transition (some "b") (some "c") "y").1
  m

def cm1 : FSM := (cmA.initMachine (some "a")).1

/-- cmA after entering b via the a -x-> b edge: the cursor's jump carries
the a state's exit hook (none), not b's raising one. -/
def cm2 : FSM := (cm1.process_event "x").1

/-- A trivial reaction callback returning the triggering event. -/
def rv0 : ReactionVal := ⟨fun _ _ ev _ => ev, []⟩

/-- Unfrozen machine with an existing edge (a, e1) and an existing
reaction binding (a, r1). -/
def mC7 : FSM :=
  let m := FSM.new (some "a")
  let m := (m.add_state (some "a") false none none none).1
  let m := (m.add_state (some "b") false none none none).1
  let m := (m.add_transition (some "a") (some "b") "e1").1
  let m := (m.add_reaction (some "a") "r1" rv0).1
  m

/-- A one-cell heap whose single machine (frozen) has one state "a". -/
def hp0 : Heap := ⟨[[((some "a" : SName), (default : StateData))]],
  [[((some "a" : SName), ([] : List (String × Jump)))]]⟩

def hm0 : HFSM := ⟨0, 0, some "a", none, none, true⟩

/-! General lemmas about the engine, shared by the claim theorems. -/

theorem exOk_true_unit {r : Except String Unit} (h : exOk r = true) :
    r = .ok () := by
  cases r with
  | ok u => cases u; rfl
  | error x => simp [exOk] at h

theorem alMem_exists {α β : Type} [DecidableEq α]
    {l : List (α × β)} {k : α} (h : alMem l k = true) :
    ∃ v, alGet l k = some v := by
  unfold alMem at h
  exact Option.isSome_iff_exists.mp h

/-- process_event when the invoked exit hook raises: the exception
escapes with its payload and the machine is returned untouched. -/
theorem process_event_exit_err (m : FSM) (cur : Jump) (sd : StateData)
    (tbl : List (String × Jump)) (rep : Jump) (e : String) (x : String)
    (hc : m.current = some cur)
    (hs : alGet m.states cur.name = some sd)
    (hterm : sd.terminal = false)
    (ht : alGet m.transitions cur.name = some tbl)
    (hr : alGet tbl e = some rep)
    (hxe : runHook cur.on_exit cur.name e = .error x) :
    m.process_event e = (m, .error (.hookRaised x)) := by
  simp [FSM.process_event, hc, hs, hterm, ht, hr, hxe]

/-- process_event when the exit hook returns but the enter hook raises:
the exception escapes with its payload and the machine is untouched. -/
theorem process_event_enter_err (m : FSM) (cur : Jump) (sd : StateData)
    (tbl : List (String × Jump)) (rep : Jump) (e : String) (y : String)
    (hc : m.current = some cur)
    (hs : alGet m.states cur.name = some sd)
    (hterm : sd.terminal = false)
    (ht : alGet m.transitions cur.name = some tbl)
    (hr : alGet tbl e = some rep)
    (hxe : runHook cur.on_exit cur.name e = .ok ())
    (hee : runHook rep.on_enter rep.name e = .error y) :
    m.process_event e = (m, .error (.hookRaised y)) := by
  simp [FSM.process_event, hc, hs, hterm, ht, hr, hxe, hee]

/-- process_event when both invoked hooks return: the cursor advances to
the replacement jump, the target cursor makes exactly one targetStep, and
the reaction/terminal pair of the destination is returned. -/
theorem process_event_ok_char (m : FSM) (cur : Jump) (sd : StateData)
    (tbl : List (String × Jump)) (rep : Jump) (sd2 : StateData) (e : String)
    (hc : m.current = some cur)
    (hs : alGet m.states cur.name = some sd)
    (hterm : sd.terminal = false)
    (ht : alGet m.transitions cur.name = some tbl)
    (hr : alGet tbl e = some rep)
    (hxe : runHook cur.on_exit cur.name e = .ok ())
    (hee : runHook rep.on_enter rep.name e = .ok ())
    (hs2 : alGet m.states rep.name = some sd2) :
    m.process_event e
      = ({ m with
            current := some rep,
            target_state := targetStep m.target_state rep.name sd2.target },
         .ok ⟨alGet sd2.reactions e, sd2.terminal⟩) := by
  obtain ⟨mt, ms, mss, mtg, mc, mf⟩ := m
  simp only at hc hs ht hs2
  subst hc
  simp only [FSM.process_event, hs, hterm, ht, hr, hxe, hee]
  cases mtg with
  | none =>
    cases htg : sd2.target <;> simp [hs2, htg, targetStep]
  | some t =>
    by_cases hn : rep.name = some t
    · rw [hn] at hs2
      cases htg : sd2.target <;> simp [hs2, hn, htg, targetStep]
    · cases htg : sd2.target <;> simp [hs2, hn, htg, targetStep]

/-- A successful process_event implies the guards passed, both invoked
hooks returned, the destination is the jump stored for (current, event),
and the cursor advanced to it. -/
theorem process_event_ok_inv (m : FSM) (e : String)
    (h : exOk (m.process_event e).2 = true) :
    ∃ cur tbl rep, m.current = some cur
      ∧ alGet m.transitions cur.name = some tbl
      ∧ alGet tbl e = some rep
      ∧ (m.process_event e).1.current = some rep := by
  cases hc : m.current with
  | none => simp [FSM.process_event, hc, exOk] at h
  | some cur =>
    cases hs : alGet m.states cur.name with
    | none => simp [FSM.process_event, hc, hs, exOk] at h
    | some sd =>
      cases hterm : sd.terminal with
      | true => simp [FSM.process_event, hc, hs, hterm, exOk] at h
      | false =>
        cases ht : alGet m.transitions cur.name with
        | none => simp [FSM.process_event, hc, hs, hterm, ht, exOk] at h
        | some tbl =>
          cases hr : alGet tbl e with
          | none => simp [FSM.process_event, hc, hs, hterm, ht, hr, exOk] at h
          | some rep =>
            refine ⟨cur, tbl, rep, rfl, ht, hr, ?_⟩
            cases hxe : runHook cur.on_exit cur.name e with
            | error x =>
              rw [process_event_exit_err m cur sd tbl rep e x hc hs hterm ht hr hxe] at h
              simp [exOk] at h
            | ok u =>
              cases u
              cases hee : runHook rep.on_enter rep.name e with
              | error y =>
                rw [process_event_enter_err m cur sd tbl rep e y hc hs hterm ht hr hxe hee] at h
                simp [exOk] at h
              | ok v =>
                cases v
                simp only [FSM.process_event, hc, hs, hterm, ht, hr, hxe, hee]
                cases hts : m.target_state with
                | none =>
                  cases hlook : alGet m.states rep.name with
                  | none => simp [hts, hlook]
                  | some sd2 => cases htg : sd2.target <;> simp [hts, hlook, htg]
                | some t =>
                  by_cases hn : rep.name = some t
                  · cases hlook : alGet m.states rep.name with
                    | none => rw [hn] at hlook; simp [hts, hlook, hn]
                    | some sd2 =>
                      rw [hn] at hlook
                      cases htg : sd2.target <;> simp [hts, hlook, hn, htg]
                  · cases hlook : alGet m.states rep.name with
                    | none => simp [hts, hlook, hn]
                    | some sd2 => simp [hts, hlook, hn]

/-- add_state on an unfrozen machine, fresh name, no declared target. -/
theorem add_state_none_tgt (f : FSM) (s : SName) (term : Bool)
    (oe ox : Option Hook) (hf : f.frozen = false)
    (hm : alMem f.states s = false) :
    f.add_state s term oe ox none
      = ({ f with
            states := alInsert f.states s ⟨term, [], oe, ox, none⟩,
            transitions := alInsert f.transitions s [] }, .ok ()) := by
  simp [FSM.add_state, hf, hm]

/-- add_transition on an unfrozen machine with both endpoints defined. -/
theorem add_transition_ok (f : FSM) (s1 s2 : SName) (ev : String)
    (sd1 sd2 : StateData) (tbl : List (String × Jump))
    (hf : f.frozen = false)
    (h1 : alGet f.states s1 = some sd1) (h2 : alGet f.states s2 = some sd2)
    (ht : alGet f.transitions s1 = some tbl) :
    f.add_transition s1 s2 ev
      = ({ f with
            transitions := alInsert f.transitions s1 (alInsert tbl ev ⟨s2, sd2.on_enter, sd1.on_exit⟩) },
         .ok ()) := by
  simp [FSM.add_transition, hf, h1, h2, ht]

/-- add_reaction on an unfrozen machine, defined state, unbound event. -/
theorem add_reaction_ok (f : FSM) (st : SName) (ev : String)
    (rv : ReactionVal) (sd : StateData)
    (hf : f.frozen = false)
    (hs : alGet f.states st = some sd) (hr : alGet sd.reactions ev = none) :
    f.add_reaction st ev rv
      = ({ f with
            states := alInsert f.states st { sd with reactions := alInsert sd.reactions ev rv } },
         .ok ()) := by
  simp [FSM.add_reaction, hf, hs, alMem, hr]

/-! The claim theorems. -/

/-- C1 (counterexample): on cmA the current state b carries a raising
exit-hook, yet process_event of y from b succeeds and advances the cursor
to c, because the hook actually invoked is the one stored in the cursor
jump (resolved from the edge a -x-> b, hence state a's absent exit-hook).
So the cursor can advance without the current state's exit-hook ever
having returned successfully, refuting the claim as stated. -/
theorem c1_counterexample :
    exOk (cm2.process_event "y").2 = true
    ∧ (cm2.process_event "y").1.current_state = some "c"
    ∧ cm2.current_state = some "b"
    ∧ runHook ((alGet cm2.states (some "b")).getD default).on_exit
        (some "b") "y" = .error "boom" := by
  exact ⟨rfl, rfl, rfl, rfl⟩

/-- C1 (amended): for an initialized machine with a defined transition
from the current state, process_event invokes the exit-hook recorded in
the current cursor (the exit-hook of the source of the edge by which the
current state was entered; absent right after initialize) and then the
destination's enter-hook; if an invoked hook raises, the exception
propagates unmodified and the machine, in particular both cursors, is
unchanged; the cursor advances to the destination only when the invoked
hooks have returned successfully. -/
theorem c1_theorem (m : FSM) (cur : Jump) (sd : StateData)
    (tbl : List (String × Jump)) (rep : Jump) (e : String)
    (hc : m.current = some cur)
    (hs : alGet m.states cur.name = some sd)
    (hterm : sd.terminal = false)
    (ht : alGet m.transitions cur.name = some tbl)
    (hr : alGet tbl e = some rep) :
    (∀ x, runHook cur.on_exit cur.name e = .error x →
        m.process_event e = (m, .error (.hookRaised x)))
    ∧ (∀ y, runHook cur.on_exit cur.name e = .ok () →
        runHook rep.on_enter rep.name e = .error y →
        m.process_event e = (m, .error (.hookRaised y)))
    ∧ (runHook cur.on_exit cur.name e = .ok () →
        runHook rep.on_enter rep.name e = .ok () →
        (m.process_event e).1.current = some rep) := by
  refine ⟨?_, ?_, ?_⟩
  · intro x hxe
    exact process_event_exit_err m cur sd tbl rep e x hc hs hterm ht hr hxe
  · intro y hxe hee
    exact process_event_enter_err m cur sd tbl rep e y hc hs hterm ht hr hxe hee
  · intro hxe hee
    cases hads : alGet m.states rep.name with
    | some sd2 =>
      rw [process_event_ok_char m cur sd tbl rep sd2 e hc hs hterm ht hr hxe hee hads]
    | none =>
      simp only [FSM.process_event, hc, hs, hterm, ht, hr, hxe, hee]
      cases hts : m.target_state with
      | none => simp [hts, hads]
      | some t =>
        by_cases hn : rep.name = some t
        · rw [hn] at hads
          simp [hts, hads, hn]
        · simp [hts, hads, hn]

/-- C1 (witness): the amended theorem applied to the concrete machine cm2
(current state b entered via a -x-> b), event y: both invoked hooks are
absent, so the cursor advances to the stored replacement jump. -/
theorem c1_witness :
    (cm2.process_event "y").1.current = some ⟨some "c", none, some boomHook⟩ :=
  (c1_theorem cm2 ⟨some "b", none, none⟩ ⟨false, [], none, some boomHook, none⟩
      [("y", ⟨some "c", none, some boomHook⟩)] ⟨some "c", none, some boomHook⟩
      "y" rfl rfl rfl rfl rfl).2.2 rfl rfl

/-- C2 (code evaluation at the failing input): initialize checks the
terminal flag of the configured start state instead of the state being
initialized to.  On mC2a (start a non-terminal, b terminal) initialize(b)
succeeds and parks the cursor on the terminal state b, where the claim
requires an InvalidOperation failure; conversely on mC2b (start b
terminal) initialize(a) fails with InvalidState although a is a defined
non-terminal state. -/
theorem c2_theorem :
    (mC2a.initMachine (some "b")).2 = .ok ()
    ∧ (mC2a.initMachine (some "b")).1.current_state = some "b"
    ∧ ((alGet mC2a.states (some "b")).getD default).terminal = true
    ∧ (mC2b.initMachine (some "a")).2 = .error .invalidState
    ∧ ((alGet mC2b.states (some "a")).getD default).terminal = false := by
  exact ⟨rfl, rfl, rfl, rfl, rfl⟩

/-- C3 (counterexample): after the first four transitions of Scenario A
(events active, wait, resume, done) the tracked target is active, not
deploy-done as the claim states: landing in deploy-done cleared the
target and immediately re-armed it from deploy-done's declared target. -/
theorem c3_counterexample :
    sA4.current_state = DEPLOYDONE
    ∧ sA4.target_state = some "active"
    ∧ sA4.target_state ≠ some "deploy complete" := by
  refine ⟨rfl, rfl, by decide⟩

/-- C3 (amended): on every committed transition the target cursor is
cleared when the destination equals the tracked target and then re-armed
from the newly entered state's declared target when none is tracked
(targetStep); on the provisioning graph the sequence active, wait,
resume, done, next-state visits deploying, deploy-wait, deploying,
deploy-done, active with tracked target deploy-done after each of the
first three transitions, active after done lands in deploy-done, and null
after next-state lands in active, with terminated false. -/
theorem c3_theorem :
    (∀ (m : FSM) (cur : Jump) (sd : StateData) (tbl : List (String × Jump))
        (rep : Jump) (sd2 : StateData) (e : String),
        m.current = some cur → alGet m.states cur.name = some sd →
        sd.terminal = false → alGet m.transitions cur.name = some tbl →
        alGet tbl e = some rep →
        runHook cur.on_exit cur.name e = .ok () →
        runHook rep.on_enter rep.name e = .ok () →
        alGet m.states rep.name = some sd2 →
        (m.process_event e).1.target_state
          = targetStep m.target_state rep.name sd2.target)
    ∧ (sA1.current_state = DEPLOYING ∧ sA1.target_state = some "deploy complete")
    ∧ (sA2.current_state = DEPLOYWAIT ∧ sA2.target_state = some "deploy complete")
    ∧ (sA3.current_state = DEPLOYING ∧ sA3.target_state = some "deploy complete")
    ∧ (sA4.current_state = DEPLOYDONE ∧ sA4.target_state = some "active")
    ∧ (sA5.current_state = ACTIVE ∧ sA5.target_state = none
        ∧ sA5.terminated = .ok false) := by
  refine ⟨?_, ⟨rfl, rfl⟩, ⟨rfl, rfl⟩, ⟨rfl, rfl⟩, ⟨rfl, rfl⟩, ⟨rfl, rfl, rfl⟩⟩
  intro m cur sd tbl rep sd2 e hc hs hterm ht hr hxe hee hs2
  rw [process_event_ok_char m cur sd tbl rep sd2 e hc hs hterm ht hr hxe hee hs2]

/-- C3 (witness): the general target law applied to the fourth Scenario A
transition, deploying -done-> deploy-done. -/
theorem c3_witness :
    (sA3.process_event "done").1.target_state
      = targetStep sA3.target_state DEPLOYDONE (some "active") :=
  (c3_theorem.1 sA3 ⟨DEPLOYING, none, none⟩
      ⟨false, [], none, none, some "deploy complete"⟩
      [("fail", ⟨DEPLOYFAIL, none, none⟩), ("wait", ⟨DEPLOYWAIT, none, none⟩),
        ("done", ⟨DEPLOYDONE, none, none⟩), ("error", ⟨ERROR, none, none⟩)]
      ⟨DEPLOYDONE, none, none⟩ ⟨false, [], none, none, some "active"⟩
      "done" rfl rfl rfl rfl rfl rfl rfl rfl)

/-- C4: on resumption of the run_iter generator from a non-terminal newly
entered state, a caller-injected event always wins (even when a reaction
was returned); otherwise a returned reaction is invoked with (old state,
new state, event, bound extras) and its return value is the next event;
with neither, the run stalls with the NotFound (StalledExecution) raise. -/
theorem c4_theorem :
    ∀ (old new : Option String) (ev inj : String) (r : Option ReactionVal)
      (rv : ReactionVal),
      runIterResume false r (some inj) old new ev = .next inj
      ∧ runIterResume false (some rv) none old new ev
          = .next (rv.cb old new ev rv.args)
      ∧ runIterResume false none none old new ev = .stalled := by
  intro old new ev inj r rv
  refine ⟨?_, rfl, rfl⟩
  cases r <;> rfl

/-- C5: test_event never raises on a key-closed machine and returns false
exactly when step 1 of process_event fails with InvalidState
(uninitialized, terminal current state, or no edge for the event); in
particular from a terminal current state process_event fails with
InvalidState and test_event is false for every event.  test_event is a
pure read: it is a function of the machine alone and returns no machine. -/
theorem c5_theorem (m : FSM) (e : String) (h : WFb m = true) :
    exOk (m.test_event e) = true
    ∧ (m.test_event e = .ok false ↔ (m.process_event e).2 = .error .invalidState)
    ∧ (∀ cur sdc, m.current = some cur → alGet m.states cur.name = some sdc →
        sdc.terminal = true →
        m.test_event e = .ok false
        ∧ (m.process_event e).2 = .error .invalidState) := by
  have h' := h
  simp only [WFb, Bool.and_eq_true, List.all_eq_true] at h'
  obtain ⟨⟨h1, h2⟩, h3⟩ := h'
  cases hc : m.current with
  | none =>
    refine ⟨by simp [FSM.test_event, hc, exOk],
            by simp [FSM.test_event, FSM.process_event, hc], ?_⟩
    intro cur sdc hcur _ _
    exact absurd hcur (by simp)
  | some cur =>
    simp only [hc] at h3
    obtain ⟨sdc, hsd⟩ := alMem_exists h3
    have hpair := alGet_mem hsd
    have hmemT := h1 _ hpair
    obtain ⟨tbl, htbl⟩ := alMem_exists hmemT
    cases hterm : sdc.terminal with
    | true =>
      refine ⟨by simp [FSM.test_event, hc, hsd, hterm, exOk],
              by simp [FSM.test_event, FSM.process_event, hc, hsd, hterm], ?_⟩
      intro cur2 sdc2 hcur2 hsd2 hT2
      exact ⟨by simp [FSM.test_event, hc, hsd, hterm],
             by simp [FSM.process_event, hc, hsd, hterm]⟩
    | false =>
      cases hge : alGet tbl e with
      | none =>
        have hmF : alMem tbl e = false := by unfold alMem; rw [hge]; rfl
        refine ⟨by simp [FSM.test_event, hc, hsd, hterm, htbl, exOk],
                by simp [FSM.test_event, FSM.process_event, hc, hsd, hterm,
                  htbl, hge, hmF], ?_⟩
        intro cur2 sdc2 hcur2 hsd2 hT2
        injection hcur2 with hq
        subst hq
        rw [hsd] at hsd2
        injection hsd2 with hq2
        subst hq2
        rw [hterm] at hT2
        exact absurd hT2 (by simp)
      | some rep =>
        have hmT : alMem tbl e = true := by unfold alMem; rw [hge]; rfl
        have hpairT := alGet_mem htbl
        have hrepmem := alGet_mem hge
        have hrepstate := h2 _ hpairT _ hrepmem
        obtain ⟨sd2, hsd2⟩ := alMem_exists hrepstate
        refine ⟨by simp [FSM.test_event, hc, hsd, hterm, htbl, exOk], ?_, ?_⟩
        · constructor
          · intro hTE
            simp [FSM.test_event, hc, hsd, hterm, htbl, hmT] at hTE
          · intro hPE
            cases hxe : runHook cur.on_exit cur.name e with
            | error x =>
              rw [process_event_exit_err m cur sdc tbl rep e x hc hsd hterm
                htbl hge hxe] at hPE
              simp at hPE
            | ok u =>
              cases u
              cases hee : runHook rep.on_enter rep.name e with
              | error y =>
                rw [process_event_enter_err m cur sdc tbl rep e y hc hsd hterm
                  htbl hge hxe hee] at hPE
                simp at hPE
              | ok v =>
                cases v
                rw [process_event_ok_char m cur sdc tbl rep sd2 e hc hsd hterm
                  htbl hge hxe hee hsd2] at hPE
                simp at hPE
        · intro cur2 sdc2 hcur2 hsd2' hT2
          injection hcur2 with hq
          subst hq
          rw [hsd] at hsd2'
          injection hsd2' with hq2
          subst hq2
          rw [hterm] at hT2
          exact absurd hT2 (by simp)

/-- C5 (witness): the theorem applied to the initialized provisioning
machine and an undefined event. -/
theorem c5_witness :
    exOk (sA0.test_event "bogus") = true
    ∧ (sA0.test_event "bogus" = .ok false
        ↔ (sA0.process_event "bogus").2 = .error .invalidState) :=
  ⟨(c5_theorem sA0 "bogus" rfl).1, (c5_theorem sA0 "bogus" rfl).2.1⟩

/-- C6: on a frozen machine every add_state, add_reaction and
add_transition call fails with FrozenMachine regardless of arguments and
leaves the machine untouched, and freezing again is the identity. -/
theorem c6_theorem (m : FSM) (h : m.frozen = true) :
    (∀ state terminal oe ox tgt,
        m.add_state state terminal oe ox tgt = (m, .error .frozenMachine))
    ∧ (∀ st ev rv, m.add_reaction st ev rv = (m, .error .frozenMachine))
    ∧ (∀ s1 s2 ev, m.add_transition s1 s2 ev = (m, .error .frozenMachine))
    ∧ m.freeze = m := by
  refine ⟨?_, ?_, ?_, ?_⟩
  · intro state terminal oe ox tgt
    simp [FSM.add_state, h]
  · intro st ev rv
    simp [FSM.add_reaction, h]
  · intro s1 s2 ev
    simp [FSM.add_transition, h]
  · cases m with
    | mk t s st tg c f =>
      simp [FSM.freeze] at h ⊢
      exact h

/-- C6 (witness): the theorem applied to the frozen provisioning
machine. -/
theorem c6_witness :
    machine.add_transition DEPLOYING ACTIVE "zz"
      = (machine, .error .frozenMachine) :=
  (c6_theorem machine rfl).2.2.1 DEPLOYING ACTIVE "zz"

/-- C7: on an unfrozen machine, add_transition over an existing
(start, event) edge succeeds silently and the edge now stored for that
pair is the freshly resolved jump to the new end state (last write wins),
while add_reaction over an existing (state, event) binding fails with
Duplicate and returns the machine unchanged. -/
theorem c7_theorem (m : FSM) (hf : m.frozen = false) :
    (∀ start stop ev sdS sdE tbl j0,
        alGet m.states start = some sdS → alGet m.states stop = some sdE →
        alGet m.transitions start = some tbl → alGet tbl ev = some j0 →
        (m.add_transition start stop ev).2 = .ok ()
        ∧ alGet (m.add_transition start stop ev).1.transitions start
            = some (alInsert tbl ev ⟨stop, sdE.on_enter, sdS.on_exit⟩)
        ∧ alGet (alInsert tbl ev ⟨stop, sdE.on_enter, sdS.on_exit⟩) ev
            = some ⟨stop, sdE.on_enter, sdS.on_exit⟩)
    ∧ (∀ st ev sd r0 rNew,
        alGet m.states st = some sd → alGet sd.reactions ev = some r0 →
        m.add_reaction st ev rNew = (m, .error .duplicate)) := by
  constructor
  · intro start stop ev sdS sdE tbl j0 hS hE hT hJ
    refine ⟨?_, ?_, alGet_insert_self _ _ _⟩
    · simp [FSM.add_transition, hf, hS, hE, hT]
    · simp [FSM.add_transition, hf, hS, hE, hT, alGet_insert_self]
  · intro st ev sd r0 rNew hS hR
    simp [FSM.add_reaction, hf, hS, alMem, hR]

/-- C7 (witness): the theorem applied to mC7, overwriting the existing
(a, e1) edge with an edge to a itself, and re-binding the bound (a, r1)
reaction. -/
theorem c7_witness :
    (mC7.add_transition (some "a") (some "a") "e1").2 = .ok ()
    ∧ mC7.add_reaction (some "a") "r1" rv0 = (mC7, .error .duplicate) :=
  ⟨((c7_theorem mC7 rfl).1 (some "a") (some "a") "e1"
      ⟨false, [("r1", rv0)], none, none, none⟩
      ⟨false, [("r1", rv0)], none, none, none⟩
      [("e1", ⟨some "b", none, none⟩)] ⟨some "b", none, none⟩
      rfl rfl rfl rfl).1,
   (c7_theorem mC7 rfl).2 (some "a") "r1"
      ⟨false, [("r1", rv0)], none, none, none⟩ rv0 rv0 rfl rfl⟩

/-- C8: add_transition with an undefined start or end state fails with
NotFound and returns the machine unchanged, so no partial edge is
visible; in particular the concrete call on the unfrozen provisioning
graph with the undefined end state fails this way and stores no edge. -/
theorem c8_theorem :
    (∀ (m : FSM) (s1 s2 : SName) (ev : String), m.frozen = false →
        alGet m.states s1 = none ∨ alGet m.states s2 = none →
        m.add_transition s1 s2 ev = (m, .error .notFound))
    ∧ machineUnfrozen.add_transition DEPLOYING (some "unknown-state") "x"
        = (machineUnfrozen, .error .notFound)
    ∧ alGet ((alGet (machineUnfrozen.add_transition DEPLOYING
          (some "unknown-state") "x").1.transitions DEPLOYING).getD []) "x"
        = none := by
  refine ⟨?_, by rfl, by rfl⟩
  intro m s1 s2 ev hf h
  cases hg1 : alGet m.states s1 with
  | none => simp [FSM.add_transition, hf, hg1]
  | some sd1 =>
    cases h with
    | inl h1 => rw [hg1] at h1; exact absurd h1 (by simp)
    | inr h2 => simp [FSM.add_transition, hf, hg1, h2]

/-- C8 (witness): the general part applied to the unfrozen provisioning
graph with an undefined start state. -/
theorem c8_witness :
    machineUnfrozen.add_transition (some "nope") ACTIVE "z"
      = (machineUnfrozen, .error .notFound) :=
  c8_theorem.1 machineUnfrozen (some "nope") ACTIVE "z" rfl (Or.inl rfl)

/-- Writing a fresh state through one reference makes it visible through
any machine holding the same references (the observational content of
shared tables). -/
theorem hadd_state_shared (hp : Heap) (c m : HFSM) (s : SName) (term : Bool)
    (oe ox : Option Hook)
    (hrefS : c.statesRef = m.statesRef) (hrefT : c.transRef = m.transRef)
    (hfz : c.hfrozen = false)
    (hmem : alMem (toFSM hp c).states s = false)
    (hlen1 : m.statesRef < hp.statesTabs.length)
    (hlen2 : m.transRef < hp.transTabs.length) :
    alMem (toFSM (haddState hp c s term oe ox none).1 m).states s = true
    ∧ alMem (toFSM (haddState hp c s term oe ox none).1 m).transitions s
        = true := by
  have hfz2 : (toFSM hp c).frozen = false := hfz
  have hstep := add_state_none_tgt (toFSM hp c) s term oe ox hfz2 hmem
  constructor
  · show alMem (toFSM (writeback hp c
        ((toFSM hp c).add_state s term oe ox none).1) m).states s = true
    rw [hstep]
    simp only [writeback, toFSM, hrefS]
    rw [listGetD_set_self _ _ _ _ hlen1]
    exact alMem_insert_self _ _ _
  · show alMem (toFSM (writeback hp c
        ((toFSM hp c).add_state s term oe ox none).1) m).transitions s = true
    rw [hstep]
    simp only [writeback, toFSM, hrefT]
    rw [listGetD_set_self _ _ _ _ hlen2]
    exact alMem_insert_self _ _ _

/-- C9: copy always yields an unfrozen machine with both cursors
uninitialized; consequently definition calls on a copy of a frozen
machine succeed (shown for add_state with fresh name, add_transition with
defined endpoints, add_reaction with unbound event); and for a shallow
copy the tables are shared by reference, so an add_state through the copy
becomes visible in both tables of the untouched original machine. -/
theorem c9_theorem (hp : Heap) (m : HFSM) (sh : Bool) :
    ((hcopy hp m sh).2.hfrozen = false
      ∧ (hcopy hp m sh).2.hcurrent = none
      ∧ (hcopy hp m sh).2.htarget = none)
    ∧ (∀ s term oe ox,
        alMem (toFSM (hcopy hp m sh).1 (hcopy hp m sh).2).states s = false →
        (haddState (hcopy hp m sh).1 (hcopy hp m sh).2 s term oe ox none).2
          = .ok ())
    ∧ (∀ s1 s2 ev sd1 sd2 tbl,
        alGet (toFSM (hcopy hp m sh).1 (hcopy hp m sh).2).states s1 = some sd1 →
        alGet (toFSM (hcopy hp m sh).1 (hcopy hp m sh).2).states s2 = some sd2 →
        alGet (toFSM (hcopy hp m sh).1 (hcopy hp m sh).2).transitions s1 = some tbl →
        (haddTransition (hcopy hp m sh).1 (hcopy hp m sh).2 s1 s2 ev).2 = .ok ())
    ∧ (∀ st ev rv sd,
        alGet (toFSM (hcopy hp m sh).1 (hcopy hp m sh).2).states st = some sd →
        alGet sd.reactions ev = none →
        (haddReaction (hcopy hp m sh).1 (hcopy hp m sh).2 st ev rv).2 = .ok ())
    ∧ (sh = true → m.statesRef < hp.statesTabs.length →
        m.transRef < hp.transTabs.length →
        ∀ s term oe ox, alMem (toFSM hp m).states s = false →
          alMem (toFSM (haddState hp (hcopy hp m true).2 s term oe ox none).1 m).states s
            = true
          ∧ alMem (toFSM (haddState hp (hcopy hp m true).2 s term oe ox none).1 m).transitions s
            = true) := by
  have hfrz : (toFSM (hcopy hp m sh).1 (hcopy hp m sh).2).frozen = false := by
    cases sh <;> rfl
  refine ⟨by cases sh <;> exact ⟨rfl, rfl, rfl⟩, ?_, ?_, ?_, ?_⟩
  · intro s term oe ox hmem
    simp only [haddState,
      add_state_none_tgt (toFSM (hcopy hp m sh).1 (hcopy hp m sh).2)
        s term oe ox hfrz hmem]
  · intro s1 s2 ev sd1 sd2 tbl h1 h2 ht
    simp only [haddTransition,
      add_transition_ok (toFSM (hcopy hp m sh).1 (hcopy hp m sh).2)
        s1 s2 ev sd1 sd2 tbl hfrz h1 h2 ht]
  · intro st ev rv sd hs hr
    simp only [haddReaction,
      add_reaction_ok (toFSM (hcopy hp m sh).1 (hcopy hp m sh).2)
        st ev rv sd hfrz hs hr]
  · intro _ hlen1 hlen2 s term oe ox hmem
    exact hadd_state_shared hp (hcopy hp m true).2 m s term oe ox
      rfl rfl rfl hmem hlen1 hlen2

/-- C9 (witness): a one-cell heap holding a frozen machine with one state
a; the shallow copy is unfrozen, add_state of the fresh b through it
succeeds, and the original machine record then sees b in its own state
table. -/
theorem c9_witness :
    (hcopy hp0 hm0 true).2.hfrozen = false
    ∧ (haddState (hcopy hp0 hm0 true).1 (hcopy hp0 hm0 true).2
        (some "b") false none none none).2 = .ok ()
    ∧ alMem (toFSM (haddState hp0 (hcopy hp0 hm0 true).2
        (some "b") false none none none).1 hm0).states (some "b") = true :=
  ⟨(c9_theorem hp0 hm0 true).1.1,
   (c9_theorem hp0 hm0 true).2.1 (some "b") false none none rfl,
   ((c9_theorem hp0 hm0 true).2.2.2.2 rfl (by decide) (by decide)
      (some "b") false none none rfl).1⟩

/-- C10: in the frozen provisioning graph no stored transition has
rebuild or deleted as its destination, so no successful process_event on
any machine sharing this transition table can land the cursor on either;
nevertheless deleted is declared as deleting's target, deleting's done
edge goes to no-state, and rebuild has an outgoing error edge. -/
theorem c10_theorem :
    (∀ (m : FSM) (e : String), m.transitions = machine.transitions →
        exOk (m.process_event e).2 = true →
        (m.process_event e).1.current_state ≠ REBUILD
        ∧ (m.process_event e).1.current_state ≠ DELETED)
    ∧ (∀ t ∈ machine.edges, t.2.2 ≠ REBUILD ∧ t.2.2 ≠ DELETED)
    ∧ ((alGet machine.states DELETING).getD default).target = some "deleted"
    ∧ (DELETING, "done", (none : SName)) ∈ machine.edges
    ∧ (REBUILD, "error", ERROR) ∈ machine.edges := by
  have key : ∀ p ∈ machine.transitions, ∀ q ∈ p.2,
      q.2.name ≠ REBUILD ∧ q.2.name ≠ DELETED := by decide
  refine ⟨?_, by decide, by rfl, by decide, by decide⟩
  intro m e htr hok
  obtain ⟨cur, tbl, rep, hc, ht, hr, hcur⟩ := process_event_ok_inv m e hok
  rw [htr] at ht
  have hrep := key _ (alGet_mem ht) _ (alGet_mem hr)
  have hname : (m.process_event e).1.current_state = rep.name := by
    unfold FSM.current_state
    rw [hcur]
  rw [hname]
  exact hrep

/-- C10 (witness): the general part applied to the initialized
provisioning machine and the event active. -/
theorem c10_witness :
    (sA0.process_event "active").1.current_state ≠ REBUILD
    ∧ (sA0.process_event "active").1.current_state ≠ DELETED :=
  c10_theorem.1 sA0 "active" rfl rfl
